import Mathlib

/-!
Verification of the change-diffing, zone-routing and PTR-correlation engine
of the Infoblox external-dns webhook provider
(`internal/infoblox/infoblox.go`), via a shallow embedding in Lean.

Modelling conventions:
* Go strings are Lean `String`s; the string operations the engine uses
  (`len`, `strings.HasSuffix`, `strings.EqualFold`, splitting) are embedded
  over the list of character codes, which coincides with Go's byte view on
  the ASCII data (DNS names, IP literals) this code handles.
* Go maps are association lists with last-write-wins insertion; iteration
  follows the list order (one admissible order for Go's unspecified range
  order). A map value holding a pointer into a slice is rendered by updating
  the corresponding (last-inserted) element of the list in place.
* IP addresses are IPv4, embedded as `Nat` values below `2^32`;
  `net.ParseIP` / `net.ParseCIDR` are embedded for dotted-quad IPv4 input
  (the form every reverse-zone name in this provider takes).
* Fallible collaborator calls (`PagingGetObject`, zone listing) are oracle
  inputs of type `Except IBErr _`.
-/

/-- Go `endpoint.Endpoint`, restricted to the fields the engine reads:
`DNSName`, `RecordType`, `Targets`, `RecordTTL` (0 = not configured) and
`ProviderSpecific` (a list of name/value pairs). -/
structure Endpoint where
  dnsName : String
  recordType : String
  targets : List String
  recordTTL : Nat
  providerSpecific : List (String × String)
deriving DecidableEq

/-- Go `infobloxChange`: an action string (`CREATE`/`UPDATE`/`DELETE`)
paired with an endpoint. -/
structure InfobloxChange where
  action : String
  endpoint : Endpoint
deriving DecidableEq

/-- Go `plan.Changes`: the four endpoint batches. -/
structure Changes where
  create : List Endpoint
  updateOld : List Endpoint
  updateNew : List Endpoint
  delete : List Endpoint
deriving DecidableEq

/-- Go `ibclient.ZoneAuth`, restricted to the `Fqdn` field, the only one the
routing code reads. -/
structure ZoneAuth where
  fqdn : String
deriving DecidableEq

/-- The provider configuration fields consulted by the embedded code:
`CreatePTR` and `DefaultTTL` of `StartupConfig`. -/
structure Config where
  createPTR : Bool
  defaultTTL : Nat
deriving DecidableEq

/-- Association-list rendering of a Go map: insertion overwrites the value
stored at an existing key and appends a fresh key at the end. -/
def insertAssoc {κ α : Type} [DecidableEq κ] (m : List (κ × α)) (k : κ) (v : α) :
    List (κ × α) :=
  match m with
  | [] => [(k, v)]
  | (k', v') :: rest =>
      if k' = k then (k, v) :: rest else (k', v') :: insertAssoc rest k v

/-- Go map lookup. -/
def lookupAssoc {κ α : Type} [DecidableEq κ] (m : List (κ × α)) (k : κ) : Option α :=
  match m with
  | [] => none
  | (k', v) :: rest => if k' = k then some v else lookupAssoc rest k

/-- Go `delete(m, k)`. -/
def eraseAssoc {κ α : Type} [DecidableEq κ] (m : List (κ × α)) (k : κ) :
    List (κ × α) :=
  match m with
  | [] => []
  | (k', v) :: rest => if k' = k then rest else (k', v) :: eraseAssoc rest k

/-- The provider-specific key tracking PTR companion records
(`providerSpecificInfobloxPtrRecord` in the source). -/
def ptrRecordKey : String := "infoblox-ptr-record-exists"

/-- Action string constants of the source. -/
def infobloxCreate : String := "CREATE"

def infobloxDelete : String := "DELETE"

def infobloxUpdate : String := "UPDATE"

/- ### Strings as lists of character codes

The Go code applies `strings.HasSuffix`, `strings.EqualFold`, `len` and
splitting to DNS names.  Those are embedded over the list of character
codes of the string (for the ASCII data of DNS zone and record names,
character codes, bytes and rune values coincide). -/

/-- The character codes of a string. -/
def strCodes (s : String) : List Nat := s.toList.map Char.toNat

/-- Go `len(s)` (byte length; equal to the character count on ASCII data). -/
def goLen (s : String) : Nat := (strCodes s).length

/-- `strings.HasSuffix s suf` (case-sensitive suffix test). -/
def goHasSuffix (s suf : String) : Bool :=
  (strCodes suf).isSuffixOf (strCodes s)

/-- ASCII lower-casing of one character code. -/
def lowerCode (n : Nat) : Nat := if 65 ≤ n ∧ n ≤ 90 then n + 32 else n

/-- `strings.EqualFold` on ASCII data: equality up to case. -/
def goEqualFold (a b : String) : Bool :=
  (strCodes a).map lowerCode == (strCodes b).map lowerCode

/-- `strings.Split` on a one-character separator. -/
def splitCodes (sep : Nat) : List Nat → List (List Nat)
  | [] => [[]]
  | c :: rest =>
    let r := splitCodes sep rest
    if c = sep then [] :: r
    else
      match r with
      | [] => [[c]]
      | h :: t => (c :: h) :: t

/- ### Zone Router: `findZone` -/

/-- The candidate test of `findZone`: the name ends with `"." + zone.Fqdn`
(case-sensitive, `strings.HasSuffix`) or equals the zone name up to case
(`strings.EqualFold`). -/
def isForwardCandidate (name : String) (zone : ZoneAuth) : Bool :=
  goHasSuffix name ("." ++ zone.fqdn) || goEqualFold name zone.fqdn

/-- The loop body of `findZone`: keep the candidate with the longer name
(the first seen wins ties). -/
def findZoneStep (name : String) (result : Option ZoneAuth) (zone : ZoneAuth) :
    Option ZoneAuth :=
  if isForwardCandidate name zone then
    match result with
    | none => some zone
    | some r =>
        if goLen zone.fqdn > goLen r.fqdn then some zone
        else some r
  else result

/-- `findZone`: scan all zones keeping the matching zone with the longest
name. -/
def findZone (zones : List ZoneAuth) (name : String) : Option ZoneAuth :=
  zones.foldl (findZoneStep name) none

/- ### Zone Router: `findReverseZone` and IPv4 parsing -/

/-- Decimal digit test on a character code. -/
def isDigitCode (n : Nat) : Bool := 48 ≤ n && n ≤ 57

/-- One dotted-quad field as `net.ParseIP` accepts it: 1–3 decimal digits,
no leading zero, value at most 255. -/
def parseOctet (cs : List Nat) : Option Nat :=
  if cs.length = 0 ∨ 3 < cs.length then none
  else if ¬ cs.all isDigitCode then none
  else if 1 < cs.length ∧ cs.head? = some 48 then none
  else
    let n := cs.foldl (fun a c => a * 10 + (c - 48)) 0
    if n ≤ 255 then some n else none

/-- Dotted-quad parse on character codes: four octets separated by dots. -/
def parseOctets4 (cs : List Nat) : Option Nat :=
  match splitCodes 46 cs with
  | [a, b, c, d] =>
    match parseOctet a, parseOctet b, parseOctet c, parseOctet d with
    | some a', some b', some c', some d' =>
        some (((a' * 256 + b') * 256 + c') * 256 + d')
    | _, _, _, _ => none
  | _ => none

/-- `net.ParseIP` on dotted-quad IPv4 input, as a 32-bit value. -/
def parseIPv4 (s : String) : Option Nat :=
  parseOctets4 (strCodes s)

/-- The 32-bit mask with the top `ones` bits set (`net.CIDRMask(ones, 32)`). -/
def ipv4MaskBits (ones : Nat) : Nat := 2 ^ 32 - 2 ^ (32 - ones)

/-- The prefix-length field of a CIDR string: decimal digits, value ≤ 32. -/
def parsePrefixLen (cs : List Nat) : Option Nat :=
  if cs.length = 0 ∨ 2 < cs.length then none
  else if ¬ cs.all isDigitCode then none
  else
    let n := cs.foldl (fun a c => a * 10 + (c - 48)) 0
    if n ≤ 32 then some n else none

/-- `net.ParseCIDR` on IPv4 input: the masked network address together with
the prefix length (the count of leading ones of the mask). -/
def parseCIDR (s : String) : Option (Nat × Nat) :=
  match splitCodes 47 (strCodes s) with
  | [ipCs, maskCs] =>
    match parseOctets4 ipCs, parsePrefixLen maskCs with
    | some ip, some ones => some (ip &&& ipv4MaskBits ones, ones)
    | _, _ => none
  | _ => none

/-- `IPNet.Contains`: mask the address and compare with the network. -/
def cidrContains (network ones ip : Nat) : Bool :=
  ip &&& ipv4MaskBits ones == network

/-- `findReverseZone`: parse the address, collect every zone whose name
parses as CIDR and contains it into the `networks` map, and return the entry
at the largest recorded key. The source binds
`_, mask := rZoneNet.Mask.Size()`: `Size` returns `(ones, bits)` and the
code keeps `bits` — the total bit length of the mask, `32` for every IPv4
network — discarding the leading-ones count, so all containing zones share
the single map key `32`. -/
def findReverseZone (zones : List ZoneAuth) (name : String) : Option ZoneAuth :=
  let ip? := parseIPv4 name
  let r := zones.foldl
    (fun (st : List (Nat × ZoneAuth) × Nat) zone =>
      match parseCIDR zone.fqdn with
      | none => st
      | some (network, ones) =>
        let inNet := match ip? with
          | some ip => cidrContains network ones ip
          | none => false
        if inNet then
          let mask := 32
          (insertAssoc st.1 mask zone, if st.2 < mask then mask else st.2)
        else st)
    ([], 0)
  lookupAssoc r.1 r.2

/- ### Target Differ: `CountDiff` and the `ApplyChanges` fan-out -/

/-- The composite map key `DNSName + "_" + RecordType` of `endpointsToMap`. -/
def mapKey (e : Endpoint) : String := e.dnsName ++ "_" ++ e.recordType

/-- `endpointsToMap`: index a batch by composite key; a duplicate key
overwrites (Go map write, last wins). -/
def endpointsToMap (eps : List Endpoint) : List (String × Endpoint) :=
  eps.foldl (fun m e => insertAssoc m (mapKey e) e) []

/-- `removeTargetFromEndpoint`: drop the first occurrence of `target` from a
target list (the loop breaks after the first hit). -/
def removeFirstTarget (ts : List String) (t : String) : List String :=
  match ts with
  | [] => []
  | x :: rest => if x = t then rest else x :: removeFirstTarget rest t

/-- `removeFromEndpointSlice`: drop the first endpoint with the same
`DNSName` (only the name is compared, not the record type). -/
def removeFromEndpointSlice (eps : List Endpoint) (e : Endpoint) : List Endpoint :=
  match eps with
  | [] => []
  | x :: rest =>
      if x.dnsName = e.dnsName then rest else x :: removeFromEndpointSlice rest e

/-- The per-pair body of `CountDiff` (lines 520–538 of the source): given the
old and new endpoint sharing a key, iterate the old target set emitting a
single-target Delete clone for every target absent from the new set, then
iterate the new target set emitting a single-target Create clone for every
target absent from the old set, removing each created target in place from
the new endpoint's target list.  Returns
(emitted deletes, emitted creates, the new endpoint's remaining targets).
Go map iteration over a target set is rendered as iteration over
`List.dedup` of the target list. -/
def pairDeleteStep (oldEp : Endpoint) (newTargets : List String)
    (acc : List Endpoint × List String) (t : String) :
    List Endpoint × List String :=
  if t ∈ newTargets then acc
  else (acc.1 ++ [{ oldEp with targets := [t] }], removeFirstTarget acc.2 t)

def pairCreateStep (newEp : Endpoint) (oldTargets : List String)
    (acc : List Endpoint × List String) (t : String) :
    List Endpoint × List String :=
  if t ∈ oldTargets then acc
  else (acc.1 ++ [{ newEp with targets := [t] }], removeFirstTarget acc.2 t)

def pairDiff (oldEp newEp : Endpoint) :
    List Endpoint × List Endpoint × List String :=
  let oldTargets := oldEp.targets
  let newTargets := newEp.targets
  let s1 := oldTargets.dedup.foldl (pairDeleteStep oldEp newTargets) ([], newTargets)
  let s2 := newTargets.dedup.foldl (pairCreateStep newEp oldTargets) ([], s1.2)
  (s1.1, s2.1, s2.2)

/-- Replace the targets of the first endpoint with composite key `k`. -/
def setTargetsOfFirstWithKey (eps : List Endpoint) (k : String) (ts : List String) :
    List Endpoint :=
  match eps with
  | [] => []
  | e :: rest =>
      if mapKey e = k then { e with targets := ts } :: rest
      else e :: setTargetsOfFirstWithKey rest k ts

/-- Replace the targets of the last endpoint with composite key `k` — the
element the Go map's pointer (written last) aliases. -/
def setTargetsOfLastWithKey (eps : List Endpoint) (k : String) (ts : List String) :
    List Endpoint :=
  (setTargetsOfFirstWithKey eps.reverse k ts).reverse

/-- The body of the first `CountDiff` loop (lines 499–507): a key of the
old map missing from the new map schedules the whole old endpoint for
deletion and drops it from the slice and the map. -/
def countDiffOldStep (updateNewMap : List (String × Endpoint))
    (st : Changes × List (String × Endpoint)) (kv : String × Endpoint) :
    Changes × List (String × Endpoint) :=
  match lookupAssoc updateNewMap kv.1 with
  | some _ => st
  | none =>
      ({ st.1 with
          delete := st.1.delete ++ [kv.2],
          updateOld := removeFromEndpointSlice st.1.updateOld kv.2 },
       eraseAssoc st.2 kv.1)

/-- The body of the second `CountDiff` loop (lines 510–546): a key missing
from the old map schedules the new endpoint for creation; a key present in
both fans the target-set difference out via `pairDiff`, the mutation of the
new endpoint's target list landing on the slice element the map aliases. -/
def countDiffNewStep (oldMap : List (String × Endpoint)) (ch : Changes)
    (kv : String × Endpoint) : Changes :=
  match lookupAssoc oldMap kv.1 with
  | none =>
      { ch with
          create := ch.create ++ [kv.2],
          updateNew := removeFromEndpointSlice ch.updateNew kv.2 }
  | some oldEp =>
      let r := pairDiff oldEp kv.2
      { ch with
          delete := ch.delete ++ r.1,
          create := ch.create ++ r.2.1,
          updateNew := setTargetsOfLastWithKey ch.updateNew kv.1 r.2.2 }

/-- `CountDiff`: reclassify the update batches.  A key only in `UpdateOld`
moves that endpoint to `Delete`; a key only in `UpdateNew` moves it to
`Create`; a key in both fans target-set differences out into single-target
Delete/Create entries while the endpoint (with the shared targets that
remain) stays in `UpdateNew`. -/
def countDiff (changes : Changes) : Changes :=
  let updateNewMap := endpointsToMap changes.updateNew
  let updateOldMap := endpointsToMap changes.updateOld
  let s1 := updateOldMap.foldl (countDiffOldStep updateNewMap) (changes, updateOldMap)
  updateNewMap.foldl (countDiffNewStep s1.2) s1.1

/-- `newIBChanges`: fan a batch out into one single-target change per
element of each endpoint's target list. -/
def newIBChanges (action : String) (eps : List Endpoint) : List InfobloxChange :=
  eps.foldl
    (fun acc ep =>
      acc ++ ep.targets.map
        (fun t => { action := action, endpoint := { ep with targets := [t] } }))
    []

/-- The pure part of `ApplyChanges`: run `CountDiff`, then concatenate the
Create, Update and Delete fan-outs (the combined change list handed to
`submitChanges`). -/
def applyChangesCombined (changes : Changes) : List InfobloxChange :=
  let ch := countDiff changes
  newIBChanges infobloxCreate ch.create
    ++ newIBChanges infobloxUpdate ch.updateNew
    ++ newIBChanges infobloxDelete ch.delete

/- ### PTR Correlator: marker maintenance -/

/-- The marking loop shared by `Records` (lines 278–289) and
`AdjustEndpoints` (lines 313–322): walk the provider-specific pairs setting
the value of every pair named `ptrRecordKey` to `"true"`; if none was found,
append `(ptrRecordKey, "true")` (`WithProviderSpecific`). -/
def markPtr (ps : List (String × String)) : List (String × String) :=
  let r := ps.foldl
    (fun (acc : List (String × String) × Bool) p =>
      if p.1 = ptrRecordKey then (acc.1 ++ [(p.1, "true")], true)
      else (acc.1 ++ [p], acc.2))
    ([], false)
  if r.2 then r.1 else r.1 ++ [(ptrRecordKey, "true")]

/-- The per-endpoint step of the `Records` marking pass: A-type endpoints
whose name has an observed PTR record get their marker set. -/
def markEndpointOnRead (ptrNames : List String) (e : Endpoint) : Endpoint :=
  if e.recordType = "A" ∧ e.dnsName ∈ ptrNames then
    { e with providerSpecific := markPtr e.providerSpecific }
  else e

/-- The marking pass at the end of `Records` (lines 263–291): when
`CreatePTR` is enabled, collect the names of observed PTR records and mark
every A-type endpoint among them. -/
def recordsMark (createPTR : Bool) (eps : List Endpoint) : List Endpoint :=
  if createPTR then
    let ptrNames := (eps.filter (fun e => e.recordType == "PTR")).map (·.dnsName)
    eps.map (markEndpointOnRead ptrNames)
  else eps

/-- The per-endpoint marking step of `AdjustEndpoints`: every A-type
endpoint gets its marker set. -/
def adjustEndpointStep (e : Endpoint) : Endpoint :=
  if e.recordType = "A" then
    { e with providerSpecific := markPtr e.providerSpecific }
  else e

/-- `AdjustEndpoints`: default the TTL when unset, then (when `CreatePTR` is
enabled) mark every A-type endpoint. -/
def adjustEndpoints (cfg : Config) (eps : List Endpoint) : List Endpoint :=
  let eps1 := eps.map
    (fun e => if e.recordTTL = 0 then { e with recordTTL := cfg.defaultTTL } else e)
  if cfg.createPTR then eps1.map adjustEndpointStep else eps1

/- ### Change Batcher: `ChangesByZone` -/

/-- The per-zone change lists (`map[string][]*infobloxChange`). -/
abbrev ZoneChangeMap : Type := List (String × List InfobloxChange)

/-- `changes[k] = append(changes[k], c)`: append to the list at `k`,
creating the entry when missing (append to a nil slice). -/
def mapAppendChange (m : ZoneChangeMap) (k : String) (c : InfobloxChange) :
    ZoneChangeMap :=
  match m with
  | [] => [(k, [c])]
  | (k', l) :: rest =>
      if k' = k then (k', l ++ [c]) :: rest else (k', l) :: mapAppendChange rest k c

/-- The change list stored for a zone (a missing key reads as the empty
list, like a nil Go slice). -/
def getZoneChanges (m : ZoneChangeMap) (k : String) : List InfobloxChange :=
  (lookupAssoc m k).getD []

/-- The per-change body of the `ChangesByZone` loop (lines 606–624): route
the change to its forward zone, dropping it when none matches; then, when
`CreatePTR` is enabled and the change is A-type, synthesize the companion
PTR change — a copy of the endpoint with only `RecordType` flipped to
`"PTR"` — and append it to the reverse zone of the change's first target,
dropping only the companion when no reverse zone matches. -/
def routeChange (cfg : Config) (zones : List ZoneAuth) (m : ZoneChangeMap)
    (c : InfobloxChange) : ZoneChangeMap :=
  match findZone zones c.endpoint.dnsName with
  | none => m
  | some zone =>
    if zone.fqdn = "" then m
    else
      let m1 := mapAppendChange m zone.fqdn c
      if cfg.createPTR && c.endpoint.recordType == "A" then
        match findReverseZone zones (c.endpoint.targets.headD "") with
        | none => m1
        | some reverseZone =>
            mapAppendChange m1 reverseZone.fqdn
              { action := c.action,
                endpoint := { c.endpoint with recordType := "PTR" } }
      else m1

/-- `ChangesByZone`: pre-seed every zone with an empty list, then route each
change. -/
def changesByZone (cfg : Config) (zones : List ZoneAuth)
    (changeSets : List InfobloxChange) : ZoneChangeMap :=
  let init := zones.foldl (fun m z => insertAssoc m z.fqdn ([] : List InfobloxChange)) []
  changeSets.foldl (routeChange cfg zones) init

/- ### Error handling: `zones` and `Records` against the backend -/

/-- Collaborator failure kinds: `ibclient.NotFoundError` versus any other
backend error. -/
inductive IBErr : Type
  | notFound : IBErr
  | other : String → IBErr
deriving DecidableEq

/-- `isNotFoundError`. -/
def isNotFoundError : IBErr → Bool
  | .notFound => true
  | .other _ => false

/-- The call-site pattern `err = PagingGetObject(...); if err != nil &&
!isNotFoundError(err) { return err }` with the result slice left empty on
error: a "not found" failure reads as an empty result, any other failure
propagates. -/
def fetchOrEmpty {α : Type} (r : Except IBErr (List α)) : Except IBErr (List α) :=
  match r with
  | .ok xs => .ok xs
  | .error e => if isNotFoundError e then .ok [] else .error e

/-- The record kinds `Records` fetches per zone. -/
inductive RecKind : Type
  | A | Host | CNAME | TXT | PTR
deriving DecidableEq

/-- `zones()` (lines 563–593): list the zones, treating "not found" as an
empty listing, and keep those matching the domain filter. -/
def zonesOp (domainMatch : String → Bool)
    (backendZones : Except IBErr (List ZoneAuth)) : Except IBErr (List ZoneAuth) :=
  match fetchOrEmpty backendZones with
  | .error e => .error e
  | .ok res => .ok (res.filter (fun z => domainMatch z.fqdn))

/-- The per-zone fetches of `Records` (lines 191–260): A, Host, CNAME and
TXT records, and — when `CreatePTR` is enabled and the zone name converts to
an in-addr zone (embedded: parses as CIDR) — PTR records.  Every site uses
the not-found-as-empty pattern; any other failure aborts. -/
def fetchZoneRecords (cfg : Config)
    (fetch : String → RecKind → Except IBErr (List Endpoint)) (z : ZoneAuth) :
    Except IBErr (List Endpoint) := do
  let a ← fetchOrEmpty (fetch z.fqdn .A)
  let h ← fetchOrEmpty (fetch z.fqdn .Host)
  let c ← fetchOrEmpty (fetch z.fqdn .CNAME)
  let t ← fetchOrEmpty (fetch z.fqdn .TXT)
  let p ← match parseCIDR z.fqdn with
    | some _ => if cfg.createPTR then fetchOrEmpty (fetch z.fqdn .PTR) else pure []
    | none => pure []
  pure (a ++ h ++ c ++ t ++ p)

/-- Accumulate the per-zone fetches over the zone list. -/
def fetchAllZones (cfg : Config)
    (fetch : String → RecKind → Except IBErr (List Endpoint)) :
    List ZoneAuth → Except IBErr (List Endpoint)
  | [] => .ok []
  | z :: rest => do
    let eps ← fetchZoneRecords cfg fetch z
    let rem ← fetchAllZones cfg fetch rest
    pure (eps ++ rem)

/-- `Records`: zones, per-zone record fetches, then the PTR marking pass. -/
def recordsOp (cfg : Config) (domainMatch : String → Bool)
    (backendZones : Except IBErr (List ZoneAuth))
    (fetch : String → RecKind → Except IBErr (List Endpoint)) :
    Except IBErr (List Endpoint) := do
  let zs ← zonesOp domainMatch backendZones
  let eps ← fetchAllZones cfg fetch zs
  pure (recordsMark cfg.createPTR eps)

/- ## Lemmas: `findZone` -/

lemma findZoneStep_spec (name : String) (acc : Option ZoneAuth) (zone : ZoneAuth) :
    (findZoneStep name acc zone = none →
      acc = none ∧ isForwardCandidate name zone = false)
    ∧ (∀ b, findZoneStep name acc zone = some b →
        ((b = zone ∧ isForwardCandidate name zone = true) ∨ acc = some b)
        ∧ (isForwardCandidate name zone = true → goLen zone.fqdn ≤ goLen b.fqdn)
        ∧ (∀ a, acc = some a → goLen a.fqdn ≤ goLen b.fqdn)) := by
  by_cases hc : isForwardCandidate name zone = true
  · cases acc with
    | none =>
      simp only [findZoneStep, if_pos hc]
      refine ⟨fun h => Option.noConfusion h, ?_⟩
      intro b hb
      cases hb
      exact ⟨Or.inl ⟨rfl, hc⟩, fun _ => le_refl _, fun a ha => by cases ha⟩
    | some r =>
      by_cases hlt : goLen zone.fqdn > goLen r.fqdn
      · simp only [findZoneStep, if_pos hc, if_pos hlt]
        refine ⟨fun h => Option.noConfusion h, ?_⟩
        intro b hb
        cases hb
        refine ⟨Or.inl ⟨rfl, hc⟩, fun _ => le_refl _, ?_⟩
        intro a ha
        cases ha
        exact le_of_lt hlt
      · simp only [findZoneStep, if_pos hc, if_neg hlt]
        refine ⟨fun h => Option.noConfusion h, ?_⟩
        intro b hb
        cases hb
        refine ⟨Or.inr rfl, fun _ => le_of_not_lt hlt, ?_⟩
        intro a ha
        cases ha
        exact le_refl _
  · have hc' : isForwardCandidate name zone = false := by
      simpa using hc
    simp only [findZoneStep, if_neg hc]
    refine ⟨fun h => ⟨h, hc'⟩, ?_⟩
    intro b hb
    refine ⟨Or.inr hb, fun habs => absurd habs hc, ?_⟩
    intro a ha
    rw [hb] at ha
    cases ha
    exact le_refl _

lemma findZone_foldl_spec (name : String) :
    ∀ (zs : List ZoneAuth) (acc : Option ZoneAuth),
      (zs.foldl (findZoneStep name) acc = none →
        acc = none ∧ ∀ z ∈ zs, isForwardCandidate name z = false)
      ∧ (∀ z, zs.foldl (findZoneStep name) acc = some z →
          ((z ∈ zs ∧ isForwardCandidate name z = true) ∨ acc = some z)
          ∧ (∀ z' ∈ zs, isForwardCandidate name z' = true →
              goLen z'.fqdn ≤ goLen z.fqdn)
          ∧ (∀ a, acc = some a → goLen a.fqdn ≤ goLen z.fqdn)) := by
  intro zs
  induction zs with
  | nil =>
    intro acc
    simp only [List.foldl_nil]
    refine ⟨fun h => ⟨h, by simp⟩, ?_⟩
    intro z h
    refine ⟨Or.inr h, by simp, ?_⟩
    intro a ha
    rw [h] at ha
    cases ha
    exact le_refl _
  | cons zone rest ih =>
    intro acc
    have hstep := findZoneStep_spec name acc zone
    have hrest := ih (findZoneStep name acc zone)
    simp only [List.foldl_cons]
    constructor
    · intro h
      obtain ⟨hacc', hnone⟩ := hrest.1 h
      obtain ⟨haccn, hcz⟩ := hstep.1 hacc'
      refine ⟨haccn, ?_⟩
      intro z hz
      rcases List.mem_cons.mp hz with hz | hz
      · rw [hz]; exact hcz
      · exact hnone z hz
    · intro z h
      obtain ⟨hA, hB, hC⟩ := hrest.2 z h
      have hzone_le : isForwardCandidate name zone = true →
          goLen zone.fqdn ≤ goLen z.fqdn := by
        intro hcz
        cases hacc' : findZoneStep name acc zone with
        | none =>
          have := (hstep.1 hacc').2
          rw [hcz] at this
          cases this
        | some b =>
          exact le_trans ((hstep.2 b hacc').2.1 hcz) (hC b hacc')
      refine ⟨?_, ?_, ?_⟩
      · rcases hA with ⟨hm, hc⟩ | hacc'
        · exact Or.inl ⟨List.mem_cons_of_mem _ hm, hc⟩
        · rcases (hstep.2 z hacc').1 with ⟨hz, hc⟩ | hacc
          · exact Or.inl ⟨by rw [hz]; exact List.mem_cons_self _ _, by rw [hz]; exact hc⟩
          · exact Or.inr hacc
      · intro z' hz' hc'
        rcases List.mem_cons.mp hz' with hz' | hz'
        · rw [hz']
          rw [hz'] at hc'
          exact hzone_le hc'
        · exact hB z' hz' hc'
      · intro a ha
        cases hacc' : findZoneStep name acc zone with
        | none =>
          have := (hstep.1 hacc').1
          rw [ha] at this
          cases this
        | some b =>
          exact le_trans ((hstep.2 b hacc').2.2 a ha) (hC b hacc')

/-- Claim C4: `findZone` treats a zone as a candidate exactly when the name
equals the zone name case-insensitively or ends with `"."` followed by the
zone name; among candidates the zone with the longest name is returned, and
the result is `none` exactly when no zone matches. -/
theorem findZone_longest_candidate (zones : List ZoneAuth) (name : String) :
    (findZone zones name = none → ∀ z ∈ zones, isForwardCandidate name z = false)
    ∧ ((∀ z ∈ zones, isForwardCandidate name z = false) → findZone zones name = none)
    ∧ (∀ z, findZone zones name = some z →
        z ∈ zones ∧ isForwardCandidate name z = true ∧
        ∀ z' ∈ zones, isForwardCandidate name z' = true →
          goLen z'.fqdn ≤ goLen z.fqdn) := by
  have h := findZone_foldl_spec name zones none
  have hsome : ∀ z, findZone zones name = some z →
      z ∈ zones ∧ isForwardCandidate name z = true ∧
      ∀ z' ∈ zones, isForwardCandidate name z' = true →
        goLen z'.fqdn ≤ goLen z.fqdn := by
    intro z hz
    obtain ⟨hA, hB, _⟩ := h.2 z hz
    rcases hA with ⟨hm, hc⟩ | habs
    · exact ⟨hm, hc, hB⟩
    · exact Option.noConfusion habs
  refine ⟨fun hn => (h.1 hn).2, ?_, hsome⟩
  intro hno
  cases hf : findZone zones name with
  | none => rfl
  | some z =>
    obtain ⟨hm, hc, _⟩ := hsome z hf
    rw [hno z hm] at hc
    cases hc

/-- Witness for C4 at the spec's concrete example. -/
theorem findZone_longest_candidate_w :
    findZone [⟨"example.com"⟩, ⟨"a.example.com"⟩] "host.a.example.com"
        = some ⟨"a.example.com"⟩
    ∧ goLen "example.com" ≤ goLen "a.example.com" := by
  refine ⟨by decide, ?_⟩
  exact ((findZone_longest_candidate [⟨"example.com"⟩, ⟨"a.example.com"⟩]
      "host.a.example.com").2.2 ⟨"a.example.com"⟩ (by decide)).2.2
    ⟨"example.com"⟩ (by decide) (by decide)

/- ## C1: `findReverseZone` order dependence -/

/-- Claim C1 (refuted — code bug): `findReverseZone` does **not** pick the
candidate with the largest prefix length irrespective of zone order.  Both
`10.0.0.0/8` and `10.1.0.0/16` contain `10.1.2.3`, yet the function returns
whichever containing zone appears last: the `/16` zone only when it is
listed second, and the `/8` zone when the order is reversed — because the
source keys candidates by the second component of `Mask.Size()` (the total
bit count, 32 for every IPv4 network) instead of the prefix length. -/
theorem findReverseZone_last_containing_zone_wins :
    findReverseZone [⟨"10.0.0.0/8"⟩, ⟨"10.1.0.0/16"⟩] "10.1.2.3"
        = some ⟨"10.1.0.0/16"⟩
    ∧ findReverseZone [⟨"10.1.0.0/16"⟩, ⟨"10.0.0.0/8"⟩] "10.1.2.3"
        = some ⟨"10.0.0.0/8"⟩
    ∧ parseCIDR "10.0.0.0/8" = some (167772160, 8)
    ∧ parseCIDR "10.1.0.0/16" = some (167837696, 16)
    ∧ cidrContains 167772160 8 167838211 = true
    ∧ cidrContains 167837696 16 167838211 = true := by
  refine ⟨by decide, by decide, by decide, by decide, by decide, by decide⟩

/- ## Lemmas: association maps -/

lemma lookup_insertAssoc {κ α : Type} [DecidableEq κ] :
    ∀ (m : List (κ × α)) (k : κ) (v : α) (q : κ),
      lookupAssoc (insertAssoc m k v) q =
        if k = q then some v else lookupAssoc m q := by
  intro m k v
  induction m with
  | nil =>
    intro q
    simp only [insertAssoc, lookupAssoc]
  | cons p rest ih =>
    intro q
    obtain ⟨k', v'⟩ := p
    by_cases hk : k' = k
    · subst hk
      simp only [insertAssoc, if_pos rfl, lookupAssoc]
      by_cases hq : k' = q
      · simp [hq]
      · simp [hq]
    · simp only [insertAssoc, if_neg hk, lookupAssoc]
      by_cases hq : k' = q
      · subst hq
        have hkq : ¬ k = k' := fun h => hk h.symm
        simp [hkq]
      · simp only [if_neg hq, ih q]

lemma mem_insertAssoc {κ α : Type} [DecidableEq κ] :
    ∀ (m : List (κ × α)) (k : κ) (v : α) (kv : κ × α),
      kv ∈ insertAssoc m k v → kv = (k, v) ∨ kv ∈ m := by
  intro m k v
  induction m with
  | nil =>
    intro kv h
    simp only [insertAssoc] at h
    rcases List.mem_singleton.mp h with h
    exact Or.inl h
  | cons p rest ih =>
    intro kv h
    obtain ⟨k', v'⟩ := p
    by_cases hk : k' = k
    · subst hk
      simp only [insertAssoc, if_pos rfl] at h
      rcases List.mem_cons.mp h with h | h
      · exact Or.inl h
      · exact Or.inr (List.mem_cons_of_mem _ h)
    · simp only [insertAssoc, if_neg hk] at h
      rcases List.mem_cons.mp h with h | h
      · exact Or.inr (by rw [h]; exact List.mem_cons_self _ _)
      · rcases ih kv h with h | h
        · exact Or.inl h
        · exact Or.inr (List.mem_cons_of_mem _ h)

lemma mem_keys_insertAssoc {κ α : Type} [DecidableEq κ] :
    ∀ (m : List (κ × α)) (k : κ) (v : α) (q : κ),
      q ∈ (insertAssoc m k v).map Prod.fst → q = k ∨ q ∈ m.map Prod.fst := by
  intro m k v q h
  rcases List.mem_map.mp h with ⟨kv, hmem, hq⟩
  rcases mem_insertAssoc m k v kv hmem with h' | h'
  · rw [h'] at hq
    exact Or.inl hq.symm
  · exact Or.inr (hq ▸ List.mem_map_of_mem Prod.fst h')

lemma nodupKeys_insertAssoc {κ α : Type} [DecidableEq κ] :
    ∀ (m : List (κ × α)) (k : κ) (v : α),
      (m.map Prod.fst).Nodup → ((insertAssoc m k v).map Prod.fst).Nodup := by
  intro m k v
  induction m with
  | nil =>
    intro _
    simp [insertAssoc]
  | cons p rest ih =>
    intro hnd
    obtain ⟨k', v'⟩ := p
    simp only [List.map_cons, List.nodup_cons] at hnd
    by_cases hk : k' = k
    · subst hk
      simp only [insertAssoc, if_pos rfl, List.map_cons, List.nodup_cons]
      simpa using hnd
    · simp only [insertAssoc, if_neg hk, List.map_cons, List.nodup_cons]
      refine ⟨?_, ih hnd.2⟩
      intro habs
      rcases mem_keys_insertAssoc rest k v k' habs with h | h
      · exact hk h
      · exact hnd.1 h

lemma lookup_of_mem_nodupKeys {κ α : Type} [DecidableEq κ] :
    ∀ (m : List (κ × α)), (m.map Prod.fst).Nodup →
      ∀ kv ∈ m, lookupAssoc m kv.1 = some kv.2 := by
  intro m
  induction m with
  | nil =>
    intro _ kv h
    cases h
  | cons p rest ih =>
    intro hnd kv hm
    obtain ⟨k', v'⟩ := p
    simp only [List.map_cons, List.nodup_cons] at hnd
    rcases List.mem_cons.mp hm with h | h
    · rw [h]
      simp [lookupAssoc]
    · have hne : k' ≠ kv.1 := by
        intro habs
        exact hnd.1 (habs ▸ List.mem_map_of_mem Prod.fst h)
      simp only [lookupAssoc, if_neg hne]
      exact ih hnd.2 kv h

lemma nodupKeys_endpointsToMap (eps : List Endpoint) :
    ((endpointsToMap eps).map Prod.fst).Nodup := by
  suffices h : ∀ (l : List Endpoint) (m : List (String × Endpoint)),
      (m.map Prod.fst).Nodup →
      ((l.foldl (fun m e => insertAssoc m (mapKey e) e) m).map Prod.fst).Nodup by
    exact h eps [] (by simp)
  intro l
  induction l with
  | nil => intro m hm; exact hm
  | cons e rest ih =>
    intro m hm
    exact ih _ (nodupKeys_insertAssoc m (mapKey e) e hm)

lemma lookup_endpointsToMap_self (eps : List Endpoint) :
    ∀ kv ∈ endpointsToMap eps, lookupAssoc (endpointsToMap eps) kv.1 = some kv.2 :=
  lookup_of_mem_nodupKeys _ (nodupKeys_endpointsToMap eps)

lemma endpointsToMap_append_single (eps : List Endpoint) (e : Endpoint) :
    endpointsToMap (eps ++ [e]) = insertAssoc (endpointsToMap eps) (mapKey e) e := by
  simp [endpointsToMap, List.foldl_append]

lemma lookup_endpointsToMap_eq_last (eps : List Endpoint) (k : String) :
    lookupAssoc (endpointsToMap eps) k
      = eps.reverse.find? (fun e => mapKey e == k) := by
  induction eps using List.reverseRecOn with
  | nil => simp [endpointsToMap, lookupAssoc]
  | append_singleton rest e ih =>
    rw [endpointsToMap_append_single, lookup_insertAssoc]
    simp only [List.reverse_append, List.reverse_singleton, List.singleton_append,
      List.find?_cons]
    by_cases hk : mapKey e = k
    · rw [if_pos hk]
      have : (mapKey e == k) = true := beq_iff_eq.mpr hk
      rw [this]
    · rw [if_neg hk]
      have : (mapKey e == k) = false := by
        simp [hk]
      rw [this]
      exact ih

/- ## Lemmas: the differ on identical update batches -/

lemma foldl_fixed {β γ : Type} (f : β → γ → β) :
    ∀ (l : List γ) (st : β), (∀ x ∈ l, f st x = st) → l.foldl f st = st := by
  intro l
  induction l with
  | nil => intro st _; rfl
  | cons x rest ih =>
    intro st h
    simp only [List.foldl_cons, h x (List.mem_cons_self _ _)]
    exact ih st (fun y hy => h y (List.mem_cons_of_mem _ hy))

lemma setTargetsOfFirstWithKey_self :
    ∀ (l : List Endpoint) (k : String) (e : Endpoint),
      l.find? (fun x => mapKey x == k) = some e →
      setTargetsOfFirstWithKey l k e.targets = l := by
  intro l
  induction l with
  | nil =>
    intro k e h
    cases h
  | cons x rest ih =>
    intro k e h
    rw [List.find?_cons] at h
    by_cases hk : mapKey x = k
    · have hb : (mapKey x == k) = true := beq_iff_eq.mpr hk
      rw [hb] at h
      cases h
      simp only [setTargetsOfFirstWithKey, if_pos hk]
    · have hb : (mapKey x == k) = false := by simp [hk]
      rw [hb] at h
      simp only [setTargetsOfFirstWithKey, if_neg hk]
      rw [ih k e h]

lemma setTargetsOfLastWithKey_self (eps : List Endpoint) (k : String) (e : Endpoint)
    (h : lookupAssoc (endpointsToMap eps) k = some e) :
    setTargetsOfLastWithKey eps k e.targets = eps := by
  rw [lookup_endpointsToMap_eq_last] at h
  unfold setTargetsOfLastWithKey
  rw [setTargetsOfFirstWithKey_self eps.reverse k e h, List.reverse_reverse]

lemma pairDiff_self (e : Endpoint) : pairDiff e e = ([], [], e.targets) := by
  unfold pairDiff
  have h1 : e.targets.dedup.foldl (pairDeleteStep e e.targets) ([], e.targets)
      = ([], e.targets) := by
    refine foldl_fixed _ _ _ ?_
    intro t ht
    have : t ∈ e.targets := List.mem_dedup.mp ht
    simp [pairDeleteStep, this]
  have h2 : e.targets.dedup.foldl (pairCreateStep e e.targets) ([], e.targets)
      = ([], e.targets) := by
    refine foldl_fixed _ _ _ ?_
    intro t ht
    have : t ∈ e.targets := List.mem_dedup.mp ht
    simp [pairCreateStep, this]
  dsimp only
  rw [h1]
  dsimp only
  rw [h2]

lemma countDiff_eq_updates (C X D : List Endpoint) :
    countDiff ⟨C, X, X, D⟩ = ⟨C, X, X, D⟩ := by
  unfold countDiff
  simp only []
  have hfix1 : (endpointsToMap X).foldl (countDiffOldStep (endpointsToMap X))
      (({ create := C, updateOld := X, updateNew := X, delete := D } : Changes),
        endpointsToMap X)
      = (({ create := C, updateOld := X, updateNew := X, delete := D } : Changes),
        endpointsToMap X) := by
    refine foldl_fixed _ _ _ ?_
    intro kv hkv
    unfold countDiffOldStep
    rw [lookup_endpointsToMap_self X kv hkv]
  rw [hfix1]
  refine foldl_fixed _ _ _ ?_
  intro kv hkv
  unfold countDiffNewStep
  rw [lookup_endpointsToMap_self X kv hkv]
  dsimp only
  rw [pairDiff_self]
  dsimp only
  simp only [List.append_nil]
  rw [setTargetsOfLastWithKey_self X kv.1 kv.2 (lookup_endpointsToMap_self X kv hkv)]

lemma foldl_append_hoist {α β : Type} (g : α → List β) :
    ∀ (l : List α) (init : List β),
      l.foldl (fun acc x => acc ++ g x) init
        = init ++ l.foldl (fun acc x => acc ++ g x) [] := by
  intro l
  induction l with
  | nil => intro init; simp
  | cons x rest ih =>
    intro init
    simp only [List.foldl_cons]
    rw [ih (init ++ g x), ih ([] ++ g x)]
    simp [List.append_assoc]

lemma newIBChanges_eq_flatten (a : String) (eps : List Endpoint) :
    newIBChanges a eps
      = (eps.map (fun ep => ep.targets.map
          (fun t => ({ action := a, endpoint := { ep with targets := [t] } }
            : InfobloxChange)))).flatten := by
  induction eps with
  | nil => rfl
  | cons e rest ih =>
    unfold newIBChanges
    simp only [List.foldl_cons, List.nil_append]
    rw [foldl_append_hoist]
    unfold newIBChanges at ih
    rw [ih]
    simp

lemma action_of_mem_newIBChanges (a : String) (eps : List Endpoint)
    (c : InfobloxChange) (h : c ∈ newIBChanges a eps) : c.action = a := by
  rw [newIBChanges_eq_flatten] at h
  rcases List.mem_flatten.mp h with ⟨s, hs, hc⟩
  rcases List.mem_map.mp hs with ⟨ep, _, hep⟩
  rw [← hep] at hc
  rcases List.mem_map.mp hc with ⟨t, _, hct⟩
  rw [← hct]

/-- Claim C5 (amended): with identical update batches, `CountDiff` is the
identity, so the update-diff itself contributes no creates and no deletes;
but the batch quadruple `(X, X, X, ∅)` still emits one Create per target of
the create batch and one Update per target of every endpoint left in
`UpdateNew` — not zero changes. -/
theorem rediff_update_identity (X : List Endpoint) :
    countDiff ⟨X, X, X, []⟩ = ⟨X, X, X, []⟩
    ∧ applyChangesCombined ⟨X, X, X, []⟩
        = newIBChanges infobloxCreate X ++ newIBChanges infobloxUpdate X
    ∧ applyChangesCombined ⟨[], X, X, []⟩ = newIBChanges infobloxUpdate X
    ∧ (applyChangesCombined ⟨[], X, X, []⟩).filter
        (fun c => c.action == infobloxCreate) = []
    ∧ (applyChangesCombined ⟨[], X, X, []⟩).filter
        (fun c => c.action == infobloxDelete) = [] := by
  have hid : ∀ C : List Endpoint, applyChangesCombined ⟨C, X, X, []⟩
      = newIBChanges infobloxCreate C ++ newIBChanges infobloxUpdate X := by
    intro C
    unfold applyChangesCombined
    rw [countDiff_eq_updates]
    have hdel : newIBChanges infobloxDelete ([] : List Endpoint) = [] := rfl
    dsimp only
    rw [hdel, List.append_nil]
  have hnil : newIBChanges infobloxCreate ([] : List Endpoint) = [] := rfl
  refine ⟨countDiff_eq_updates X X [], hid X, ?_, ?_, ?_⟩
  · rw [hid [], hnil, List.nil_append]
  · rw [hid [], hnil, List.nil_append]
    refine List.filter_eq_nil_iff.mpr ?_
    intro c hc
    rw [action_of_mem_newIBChanges _ _ _ hc]
    decide
  · rw [hid [], hnil, List.nil_append]
    refine List.filter_eq_nil_iff.mpr ?_
    intro c hc
    rw [action_of_mem_newIBChanges _ _ _ hc]
    decide

/-- Counterexample to Claim C5 as stated: diffing `(X, X, X, ∅)` for the
one-endpoint batch `X = [a.example.com A 1.1.1.1]` emits a Create and an
Update atomic change, not zero changes. -/
theorem rediff_counterexample :
    applyChangesCombined
        ⟨[⟨"a.example.com", "A", ["1.1.1.1"], 0, []⟩],
         [⟨"a.example.com", "A", ["1.1.1.1"], 0, []⟩],
         [⟨"a.example.com", "A", ["1.1.1.1"], 0, []⟩], []⟩
      = [⟨"CREATE", ⟨"a.example.com", "A", ["1.1.1.1"], 0, []⟩⟩,
         ⟨"UPDATE", ⟨"a.example.com", "A", ["1.1.1.1"], 0, []⟩⟩]
    ∧ applyChangesCombined
        ⟨[⟨"a.example.com", "A", ["1.1.1.1"], 0, []⟩],
         [⟨"a.example.com", "A", ["1.1.1.1"], 0, []⟩],
         [⟨"a.example.com", "A", ["1.1.1.1"], 0, []⟩], []⟩ ≠ [] := by
  refine ⟨by decide, by decide⟩

/- ## Lemmas: the differ on a single old/new pair -/

lemma removeFirstTarget_eq_erase :
    ∀ (ts : List String) (t : String), removeFirstTarget ts t = ts.erase t := by
  intro ts t
  induction ts with
  | nil => rfl
  | cons x rest ih =>
    by_cases hx : x = t
    · simp [removeFirstTarget, hx, List.erase_cons]
    · simp [removeFirstTarget, hx, List.erase_cons, ih]

lemma pairDeleteStep_foldl (oldEp : Endpoint) (newTs : List String) :
    ∀ (l : List String) (cs : List Endpoint),
      l.foldl (pairDeleteStep oldEp newTs) (cs, newTs)
        = (cs ++ (l.filter (fun t => !decide (t ∈ newTs))).map
            (fun t => { oldEp with targets := [t] }), newTs) := by
  intro l
  induction l with
  | nil => intro cs; simp
  | cons t rest ih =>
    intro cs
    by_cases ht : t ∈ newTs
    · simp only [List.foldl_cons, pairDeleteStep, if_pos ht]
      rw [ih cs]
      simp [ht]
    · simp only [List.foldl_cons, pairDeleteStep, if_neg ht]
      rw [removeFirstTarget_eq_erase, List.erase_of_not_mem ht]
      rw [ih]
      simp [List.filter_cons, ht, List.append_assoc]

lemma pairCreateStep_foldl (newEp : Endpoint) (oldTs : List String) :
    ∀ (l : List String) (cs : List Endpoint) (acc : List String),
      l.foldl (pairCreateStep newEp oldTs) (cs, acc)
        = (cs ++ (l.filter (fun t => !decide (t ∈ oldTs))).map
            (fun t => { newEp with targets := [t] }),
           acc.diff (l.filter (fun t => !decide (t ∈ oldTs)))) := by
  intro l
  induction l with
  | nil => intro cs acc; simp
  | cons t rest ih =>
    intro cs acc
    by_cases ht : t ∈ oldTs
    · simp only [List.foldl_cons, pairCreateStep, if_pos ht]
      rw [ih cs acc]
      simp [ht]
    · simp only [List.foldl_cons, pairCreateStep, if_neg ht]
      rw [removeFirstTarget_eq_erase]
      rw [ih]
      simp [List.filter_cons, ht, List.append_assoc, List.diff_cons]

lemma pairDiff_spec (oldEp newEp : Endpoint)
    (h1 : oldEp.targets.Nodup) (h2 : newEp.targets.Nodup) :
    pairDiff oldEp newEp
      = ((oldEp.targets.filter (fun t => !decide (t ∈ newEp.targets))).map
            (fun t => { oldEp with targets := [t] }),
         (newEp.targets.filter (fun t => !decide (t ∈ oldEp.targets))).map
            (fun t => { newEp with targets := [t] }),
         newEp.targets.filter (fun t => decide (t ∈ oldEp.targets))) := by
  unfold pairDiff
  dsimp only
  rw [List.dedup_eq_self.mpr h1, List.dedup_eq_self.mpr h2]
  rw [pairDeleteStep_foldl]
  dsimp only
  rw [pairCreateStep_foldl]
  dsimp only
  refine congrArg _ ?_
  refine congrArg _ ?_
  rw [h2.diff_eq_filter]
  refine List.filter_congr ?_
  intro x hx
  by_cases hox : x ∈ oldEp.targets
  · simp [List.mem_filter, hx, hox]
  · simp [List.mem_filter, hx, hox]

lemma countDiff_pair (oldEp newEp : Endpoint) (hk : mapKey oldEp = mapKey newEp) :
    countDiff ⟨[], [oldEp], [newEp], []⟩
      = ⟨(pairDiff oldEp newEp).2.1, [oldEp],
         [{ newEp with targets := (pairDiff oldEp newEp).2.2 }],
         (pairDiff oldEp newEp).1⟩ := by
  have hmapOld : endpointsToMap [oldEp] = [(mapKey oldEp, oldEp)] := rfl
  have hmapNew : endpointsToMap [newEp] = [(mapKey newEp, newEp)] := rfl
  have hlookNew : lookupAssoc [(mapKey newEp, newEp)] (mapKey oldEp) = some newEp := by
    simp [lookupAssoc, hk]
  have hlookOld : lookupAssoc [(mapKey oldEp, oldEp)] (mapKey newEp) = some oldEp := by
    simp [lookupAssoc, hk]
  unfold countDiff
  dsimp only
  rw [hmapOld, hmapNew]
  simp only [List.foldl_cons, List.foldl_nil]
  rw [countDiffOldStep]
  dsimp only
  rw [hlookNew]
  dsimp only
  rw [countDiffNewStep]
  dsimp only
  rw [hlookOld]
  dsimp only
  have hset : setTargetsOfLastWithKey [newEp] (mapKey newEp)
      (pairDiff oldEp newEp).2.2
      = [{ newEp with targets := (pairDiff oldEp newEp).2.2 }] := by
    simp [setTargetsOfLastWithKey, setTargetsOfFirstWithKey]
  rw [hset]
  simp only [List.nil_append]

lemma newIBChanges_map_single (a : String) (E : Endpoint) (l : List String) :
    newIBChanges a (l.map (fun t => { E with targets := [t] }))
      = l.map (fun t => ⟨a, { E with targets := [t] }⟩) := by
  rw [newIBChanges_eq_flatten, List.map_map]
  induction l with
  | nil => rfl
  | cons t rest ih =>
    simp only [List.map_cons, List.flatten_cons] at ih ⊢
    rw [ih]
    rfl

lemma newIBChanges_single (a : String) (E : Endpoint) (ts : List String) :
    newIBChanges a [{ E with targets := ts }]
      = ts.map (fun t => ⟨a, { E with targets := [t] }⟩) := by
  rw [newIBChanges_eq_flatten]
  simp

lemma length_union_filter :
    ∀ (l₁ l₂ : List String), l₁.Nodup →
      (l₁ ∪ l₂).length
        = (l₁.filter (fun t => !decide (t ∈ l₂))).length + l₂.length := by
  intro l₁
  induction l₁ with
  | nil => intro l₂ _; simp
  | cons x rest ih =>
    intro l₂ h
    have hx : x ∉ rest := (List.nodup_cons.mp h).1
    have hnd : rest.Nodup := (List.nodup_cons.mp h).2
    rw [List.cons_union]
    by_cases hxl : x ∈ l₂
    · rw [List.insert_of_mem (List.mem_union_iff.mpr (Or.inr hxl))]
      rw [ih l₂ hnd]
      simp [List.filter_cons, hxl]
    · have hnm : x ∉ rest ∪ l₂ := by
        intro hmem
        rcases List.mem_union_iff.mp hmem with hm | hm
        · exact hx hm
        · exact hxl hm
      rw [List.insert_of_not_mem hnm]
      simp only [List.length_cons, ih l₂ hnd]
      simp [List.filter_cons, hxl]
      omega

/-- Claim C2 (amended): for an old/new endpoint pair sharing the composite
key, the diff emits exactly one Delete per target only in the old set and
exactly one Create per target only in the new set, but a target present in
both sets is **not** silent: the endpoint stays in `UpdateNew` with exactly
the shared targets and the `ApplyChanges` fan-out emits one Update atomic
change per shared target.  No target appears in both a create and a delete,
and creates + updates + deletes together count the union of the two target
sets. -/
theorem diff_pair_shared_targets_update (oldEp newEp : Endpoint)
    (hk : mapKey oldEp = mapKey newEp)
    (h1 : oldEp.targets.Nodup) (h2 : newEp.targets.Nodup) :
    applyChangesCombined ⟨[], [oldEp], [newEp], []⟩
      = (newEp.targets.filter (fun t => !decide (t ∈ oldEp.targets))).map
          (fun t => ⟨infobloxCreate, { newEp with targets := [t] }⟩)
        ++ (newEp.targets.filter (fun t => decide (t ∈ oldEp.targets))).map
          (fun t => ⟨infobloxUpdate, { newEp with targets := [t] }⟩)
        ++ (oldEp.targets.filter (fun t => !decide (t ∈ newEp.targets))).map
          (fun t => ⟨infobloxDelete, { oldEp with targets := [t] }⟩)
    ∧ (∀ t : String,
        ¬((⟨infobloxCreate, { newEp with targets := [t] }⟩ : InfobloxChange)
            ∈ applyChangesCombined ⟨[], [oldEp], [newEp], []⟩
          ∧ (⟨infobloxDelete, { oldEp with targets := [t] }⟩ : InfobloxChange)
            ∈ applyChangesCombined ⟨[], [oldEp], [newEp], []⟩))
    ∧ (applyChangesCombined ⟨[], [oldEp], [newEp], []⟩).length
        = (oldEp.targets ∪ newEp.targets).length := by
  have heq : applyChangesCombined ⟨[], [oldEp], [newEp], []⟩
      = (newEp.targets.filter (fun t => !decide (t ∈ oldEp.targets))).map
          (fun t => ⟨infobloxCreate, { newEp with targets := [t] }⟩)
        ++ (newEp.targets.filter (fun t => decide (t ∈ oldEp.targets))).map
          (fun t => ⟨infobloxUpdate, { newEp with targets := [t] }⟩)
        ++ (oldEp.targets.filter (fun t => !decide (t ∈ newEp.targets))).map
          (fun t => ⟨infobloxDelete, { oldEp with targets := [t] }⟩) := by
    unfold applyChangesCombined
    rw [countDiff_pair oldEp newEp hk]
    dsimp only
    rw [pairDiff_spec oldEp newEp h1 h2]
    dsimp only
    rw [newIBChanges_map_single, newIBChanges_map_single, newIBChanges_single]
  refine ⟨heq, ?_, ?_⟩
  · intro t
    rintro ⟨hcr, hdel⟩
    rw [heq] at hcr hdel
    have hcr' : t ∉ oldEp.targets := by
      simp only [List.mem_append, List.mem_map, List.mem_filter,
        InfobloxChange.mk.injEq, infobloxCreate, infobloxUpdate,
        infobloxDelete] at hcr
      rcases hcr with (⟨x, ⟨_, hxmem⟩, _, hxeq⟩ | ⟨x, _, habs, _⟩) | ⟨x, _, habs, _⟩
      · have hx : x = t := by
          have := congrArg Endpoint.targets hxeq
          simpa using this
        rw [hx] at hxmem
        simpa using hxmem
      · exact absurd habs (by decide)
      · exact absurd habs (by decide)
    have hdel' : t ∈ oldEp.targets := by
      simp only [List.mem_append, List.mem_map, List.mem_filter,
        InfobloxChange.mk.injEq, infobloxCreate, infobloxUpdate,
        infobloxDelete] at hdel
      rcases hdel with (⟨x, _, habs, _⟩ | ⟨x, _, habs, _⟩) | ⟨x, ⟨hxin, _⟩, _, hxeq⟩
      · exact absurd habs (by decide)
      · exact absurd habs (by decide)
      · have hx : x = t := by
          have := congrArg Endpoint.targets hxeq
          simpa using this
        rw [hx] at hxin
        exact hxin
    exact hcr' hdel'
  · rw [heq]
    simp only [List.length_append, List.length_map]
    rw [length_union_filter oldEp.targets newEp.targets h1]
    have hsplit := List.length_eq_length_filter_add
      (l := newEp.targets) (fun t => decide (t ∈ oldEp.targets))
    simp only at hsplit
    omega

/-- Witness for C2 at the spec's scenario: old targets
`{1.1.1.1, 2.2.2.2}`, new targets `{2.2.2.2, 3.3.3.3}` yield one Create for
`3.3.3.3`, one Update for the shared `2.2.2.2` and one Delete for
`1.1.1.1`. -/
theorem diff_pair_shared_targets_update_w :
    applyChangesCombined
        ⟨[], [⟨"a.example.com", "A", ["1.1.1.1", "2.2.2.2"], 0, []⟩],
         [⟨"a.example.com", "A", ["2.2.2.2", "3.3.3.3"], 0, []⟩], []⟩
      = [⟨"CREATE", ⟨"a.example.com", "A", ["3.3.3.3"], 0, []⟩⟩,
         ⟨"UPDATE", ⟨"a.example.com", "A", ["2.2.2.2"], 0, []⟩⟩,
         ⟨"DELETE", ⟨"a.example.com", "A", ["1.1.1.1"], 0, []⟩⟩] := by
  rw [(diff_pair_shared_targets_update
      ⟨"a.example.com", "A", ["1.1.1.1", "2.2.2.2"], 0, []⟩
      ⟨"a.example.com", "A", ["2.2.2.2", "3.3.3.3"], 0, []⟩
      (by decide) (by decide) (by decide)).1]
  decide

/-- Counterexample to Claim C2 as stated: the target `2.2.2.2` present in
both target sets **does** produce an emitted change (an Update), so targets
in both sets are not free of emitted changes. -/
theorem diff_pair_counterexample :
    (⟨"UPDATE", ⟨"a.example.com", "A", ["2.2.2.2"], 0, []⟩⟩ : InfobloxChange)
      ∈ applyChangesCombined
        ⟨[], [⟨"a.example.com", "A", ["1.1.1.1", "2.2.2.2"], 0, []⟩],
         [⟨"a.example.com", "A", ["2.2.2.2", "3.3.3.3"], 0, []⟩], []⟩
    ∧ "2.2.2.2" ∈ (⟨"a.example.com", "A", ["1.1.1.1", "2.2.2.2"], 0, []⟩
        : Endpoint).targets
    ∧ "2.2.2.2" ∈ (⟨"a.example.com", "A", ["2.2.2.2", "3.3.3.3"], 0, []⟩
        : Endpoint).targets := by
  refine ⟨by decide, by decide, by decide⟩

/- ## C9: malformed input is silently coerced, not rejected -/

/-- Claim C9 (amended): the implementation has no precondition check at all.
A composite-key collision is silently coerced by last-key-wins map indexing
(`endpointsToMap` keeps only the later endpoint), and a zero-length target
list is silently fanned out into zero atomic changes; no error is possible,
`CountDiff` and the fan-out are total. -/
theorem malformed_input_silently_coerced :
    (∀ e1 e2 : Endpoint, mapKey e1 = mapKey e2 →
      endpointsToMap [e1, e2] = [(mapKey e2, e2)])
    ∧ (∀ (a : String) (eps : List Endpoint),
        (∀ e ∈ eps, e.targets = []) → newIBChanges a eps = []) := by
  constructor
  · intro e1 e2 h
    simp [endpointsToMap, insertAssoc, h]
  · intro a eps h
    rw [newIBChanges_eq_flatten]
    refine List.flatten_eq_nil_iff.mpr ?_
    intro l' hl'
    rcases List.mem_map.mp hl' with ⟨ep, hep, heq⟩
    rw [← heq, h ep hep]
    rfl

/-- Witness for C9 (amended) at a concrete collision and a concrete
zero-target batch. -/
theorem malformed_input_silently_coerced_w :
    endpointsToMap [⟨"k.example.com", "A", ["1.1.1.1"], 0, []⟩,
        ⟨"k.example.com", "A", ["2.2.2.2"], 0, []⟩]
      = [("k.example.com_A", ⟨"k.example.com", "A", ["2.2.2.2"], 0, []⟩)]
    ∧ newIBChanges "CREATE" [⟨"host.example.com", "A", [], 0, []⟩] = [] := by
  constructor
  · have h := malformed_input_silently_coerced.1
      ⟨"k.example.com", "A", ["1.1.1.1"], 0, []⟩
      ⟨"k.example.com", "A", ["2.2.2.2"], 0, []⟩ (by decide)
    rw [h]
    decide
  · exact malformed_input_silently_coerced.2 "CREATE"
      [⟨"host.example.com", "A", [], 0, []⟩] (by decide)

/-- Counterexample to Claim C9 as stated: on a key collision inside the
update-old batch the differ completes normally and silently drops the first
endpoint — its target `1.1.1.1` is never scheduled — and a zero-length
target list reaching the differ produces zero changes and no error. -/
theorem countdiff_collision_counterexample :
    countDiff ⟨[], [⟨"k.example.com", "A", ["1.1.1.1"], 0, []⟩,
        ⟨"k.example.com", "A", ["2.2.2.2"], 0, []⟩], [], []⟩
      = ⟨[], [⟨"k.example.com", "A", ["2.2.2.2"], 0, []⟩], [],
         [⟨"k.example.com", "A", ["2.2.2.2"], 0, []⟩]⟩
    ∧ applyChangesCombined ⟨[⟨"host.example.com", "A", [], 0, []⟩], [], [], []⟩
      = [] := by
  refine ⟨by decide, by decide⟩

/- ## Lemmas: routing and the change batcher -/

lemma getZoneChanges_mapAppend_same (m : ZoneChangeMap) (k : String)
    (c : InfobloxChange) :
    getZoneChanges (mapAppendChange m k c) k = getZoneChanges m k ++ [c] := by
  induction m with
  | nil => simp [mapAppendChange, getZoneChanges, lookupAssoc]
  | cons p rest ih =>
    obtain ⟨k', l⟩ := p
    by_cases hk : k' = k
    · simp [mapAppendChange, hk, getZoneChanges, lookupAssoc]
    · simp only [mapAppendChange, if_neg hk, getZoneChanges, lookupAssoc]
      simpa [getZoneChanges] using ih

lemma routeChange_no_forward (cfg : Config) (zones : List ZoneAuth)
    (m : ZoneChangeMap) (c : InfobloxChange)
    (h : findZone zones c.endpoint.dnsName = none) :
    routeChange cfg zones m c = m := by
  unfold routeChange
  rw [h]

lemma routeChange_no_reverse (cfg : Config) (zones : List ZoneAuth)
    (m : ZoneChangeMap) (c : InfobloxChange) (z : ZoneAuth)
    (hz : findZone zones c.endpoint.dnsName = some z) (hne : z.fqdn ≠ "")
    (hr : findReverseZone zones (c.endpoint.targets.headD "") = none) :
    routeChange cfg zones m c = mapAppendChange m z.fqdn c := by
  unfold routeChange
  rw [hz]
  dsimp only
  rw [if_neg hne]
  by_cases hc : (cfg.createPTR && c.endpoint.recordType == "A") = true
  · rw [if_pos hc, hr]
  · rw [if_neg hc]

lemma routeChange_with_reverse (cfg : Config) (zones : List ZoneAuth)
    (m : ZoneChangeMap) (c : InfobloxChange) (z rz : ZoneAuth)
    (hz : findZone zones c.endpoint.dnsName = some z) (hne : z.fqdn ≠ "")
    (hcp : cfg.createPTR = true) (ha : c.endpoint.recordType = "A")
    (hr : findReverseZone zones (c.endpoint.targets.headD "") = some rz) :
    routeChange cfg zones m c
      = mapAppendChange (mapAppendChange m z.fqdn c) rz.fqdn
          ⟨c.action, { c.endpoint with recordType := "PTR" }⟩ := by
  unfold routeChange
  rw [hz]
  dsimp only
  rw [if_neg hne]
  have hcond : (cfg.createPTR && c.endpoint.recordType == "A") = true := by
    simp [hcp, ha]
  rw [if_pos hcond, hr]

lemma changesByZone_drop_unroutable (cfg : Config) (zones : List ZoneAuth)
    (pre post : List InfobloxChange) (c : InfobloxChange)
    (h : findZone zones c.endpoint.dnsName = none) :
    changesByZone cfg zones (pre ++ c :: post)
      = changesByZone cfg zones (pre ++ post) := by
  unfold changesByZone
  rw [List.foldl_append, List.foldl_cons, List.foldl_append]
  rw [routeChange_no_forward cfg zones _ c h]

/-- Claim C10: a change whose DNSName matches no forward zone contributes
nothing at all to the zoned change set — even when PTR generation is
enabled, the change is A-type and a reverse zone contains its target —
because the loop `continue`s before the PTR block. -/
theorem unroutable_forward_contributes_nothing (cfg : Config)
    (zones : List ZoneAuth) :
    (∀ (m : ZoneChangeMap) (c : InfobloxChange),
      findZone zones c.endpoint.dnsName = none → routeChange cfg zones m c = m)
    ∧ (∀ (pre post : List InfobloxChange) (c : InfobloxChange),
        findZone zones c.endpoint.dnsName = none →
        changesByZone cfg zones (pre ++ c :: post)
          = changesByZone cfg zones (pre ++ post)) := by
  exact ⟨fun m c h => routeChange_no_forward cfg zones m c h,
         fun pre post c h => changesByZone_drop_unroutable cfg zones pre post c h⟩

/-- Witness for C10: forward-only-unroutable A-record create with PTR
generation on and a reverse zone (`10.0.0.0/8`) that does contain the
target; the change still contributes nothing. -/
theorem unroutable_forward_contributes_nothing_w :
    findReverseZone [⟨"10.0.0.0/8"⟩] "10.1.2.3" = some ⟨"10.0.0.0/8"⟩
    ∧ changesByZone ⟨true, 300⟩ [⟨"10.0.0.0/8"⟩]
        [⟨"CREATE", ⟨"host.example.com", "A", ["10.1.2.3"], 0, []⟩⟩]
      = changesByZone ⟨true, 300⟩ [⟨"10.0.0.0/8"⟩] [] := by
  refine ⟨by decide, ?_⟩
  exact (unroutable_forward_contributes_nothing ⟨true, 300⟩ [⟨"10.0.0.0/8"⟩]).2
    [] [] ⟨"CREATE", ⟨"host.example.com", "A", ["10.1.2.3"], 0, []⟩⟩ (by decide)

/-- Claim C6: unroutable changes never fail the batching pass: a change with
no forward zone is dropped, and when PTR generation is on but no reverse
zone matches the target, only the synthetic PTR change is dropped while the
forward change is still produced; in the spec's scenario (forward-only zone
list, A-record create for `host.example.com → 5.5.5.5`) the forward Create
appears and nothing else. -/
theorem unroutable_changes_dropped (cfg : Config) (zones : List ZoneAuth) :
    (∀ (m : ZoneChangeMap) (c : InfobloxChange),
      findZone zones c.endpoint.dnsName = none → routeChange cfg zones m c = m)
    ∧ (∀ (m : ZoneChangeMap) (c : InfobloxChange) (z : ZoneAuth),
        findZone zones c.endpoint.dnsName = some z → z.fqdn ≠ "" →
        findReverseZone zones (c.endpoint.targets.headD "") = none →
        routeChange cfg zones m c = mapAppendChange m z.fqdn c)
    ∧ changesByZone ⟨true, 300⟩ [⟨"example.com"⟩]
        [⟨"CREATE", ⟨"host.example.com", "A", ["5.5.5.5"], 0, []⟩⟩]
      = [("example.com",
          [⟨"CREATE", ⟨"host.example.com", "A", ["5.5.5.5"], 0, []⟩⟩])] := by
  refine ⟨fun m c h => routeChange_no_forward cfg zones m c h,
          fun m c z hz hne hr => routeChange_no_reverse cfg zones m c z hz hne hr,
          by decide⟩

/-- Witness for C6: the reverse-unroutable case at the spec's scenario. -/
theorem unroutable_changes_dropped_w :
    routeChange ⟨true, 300⟩ [⟨"example.com"⟩] []
        ⟨"CREATE", ⟨"host.example.com", "A", ["5.5.5.5"], 0, []⟩⟩
      = mapAppendChange [] "example.com"
          ⟨"CREATE", ⟨"host.example.com", "A", ["5.5.5.5"], 0, []⟩⟩ := by
  exact (unroutable_changes_dropped ⟨true, 300⟩ [⟨"example.com"⟩]).2.1
    [] ⟨"CREATE", ⟨"host.example.com", "A", ["5.5.5.5"], 0, []⟩⟩
    ⟨"example.com"⟩ (by decide) (by decide) (by decide)

/-- Claim C3 (amended): the synthesized PTR companion keeps the original
endpoint unchanged except for `RecordType = "PTR"`: same Action, same
DNSName and the same target list — the DNSName/target swap the spec
describes does not happen at this layer — and the companion is appended to
the reverse zone's change list. -/
theorem ptr_companion_not_swapped (cfg : Config) (zones : List ZoneAuth)
    (m : ZoneChangeMap) (c : InfobloxChange) (z rz : ZoneAuth)
    (hz : findZone zones c.endpoint.dnsName = some z) (hne : z.fqdn ≠ "")
    (hcp : cfg.createPTR = true) (ha : c.endpoint.recordType = "A")
    (hr : findReverseZone zones (c.endpoint.targets.headD "") = some rz) :
    routeChange cfg zones m c
      = mapAppendChange (mapAppendChange m z.fqdn c) rz.fqdn
          ⟨c.action, { c.endpoint with recordType := "PTR" }⟩
    ∧ getZoneChanges (routeChange cfg zones m c) rz.fqdn
      = getZoneChanges (mapAppendChange m z.fqdn c) rz.fqdn
          ++ [⟨c.action, { c.endpoint with recordType := "PTR" }⟩]
    ∧ ({ c.endpoint with recordType := "PTR" } : Endpoint).dnsName
        = c.endpoint.dnsName
    ∧ ({ c.endpoint with recordType := "PTR" } : Endpoint).targets
        = c.endpoint.targets := by
  have heq := routeChange_with_reverse cfg zones m c z rz hz hne hcp ha hr
  refine ⟨heq, ?_, rfl, rfl⟩
  rw [heq, getZoneChanges_mapAppend_same]

/-- Witness for C3 (amended) at a concrete A-record create routed to
`example.com` with reverse zone `192.0.2.0/24`. -/
theorem ptr_companion_not_swapped_w :
    routeChange ⟨true, 300⟩ [⟨"example.com"⟩, ⟨"192.0.2.0/24"⟩] []
        ⟨"CREATE", ⟨"host.example.com", "A", ["192.0.2.5"], 0, []⟩⟩
      = mapAppendChange
          (mapAppendChange [] "example.com"
            ⟨"CREATE", ⟨"host.example.com", "A", ["192.0.2.5"], 0, []⟩⟩)
          "192.0.2.0/24"
          ⟨"CREATE", ⟨"host.example.com", "PTR", ["192.0.2.5"], 0, []⟩⟩ := by
  exact (ptr_companion_not_swapped ⟨true, 300⟩ [⟨"example.com"⟩, ⟨"192.0.2.0/24"⟩]
    [] ⟨"CREATE", ⟨"host.example.com", "A", ["192.0.2.5"], 0, []⟩⟩
    ⟨"example.com"⟩ ⟨"192.0.2.0/24"⟩
    (by decide) (by decide) rfl rfl (by decide)).1

/-- Counterexample to Claim C3 as stated: in the synthesized companion
change the DNSName stays `host.example.com` (it is **not** the target
address `192.0.2.5`) and the single target stays `192.0.2.5` (it is **not**
the original DNSName). -/
theorem ptr_companion_counterexample :
    changesByZone ⟨true, 300⟩ [⟨"example.com"⟩, ⟨"192.0.2.0/24"⟩]
        [⟨"CREATE", ⟨"host.example.com", "A", ["192.0.2.5"], 0, []⟩⟩]
      = [("example.com",
          [⟨"CREATE", ⟨"host.example.com", "A", ["192.0.2.5"], 0, []⟩⟩]),
         ("192.0.2.0/24",
          [⟨"CREATE", ⟨"host.example.com", "PTR", ["192.0.2.5"], 0, []⟩⟩])]
    ∧ ("host.example.com" : String) ≠ "192.0.2.5"
    ∧ (["192.0.2.5"] : List String) ≠ ["host.example.com"] := by
  refine ⟨by decide, by decide, by decide⟩

/- ## Lemmas: PTR marker maintenance -/

lemma markPtr_foldl (ps : List (String × String)) :
    ∀ (acc : List (String × String)) (b : Bool),
      ps.foldl (fun (acc : List (String × String) × Bool) p =>
          if p.1 = ptrRecordKey then (acc.1 ++ [(p.1, "true")], true)
          else (acc.1 ++ [p], acc.2)) (acc, b)
        = (acc ++ ps.map
            (fun p => if p.1 = ptrRecordKey then (p.1, "true") else p),
           b || ps.any (fun p => p.1 == ptrRecordKey)) := by
  induction ps with
  | nil => intro acc b; simp
  | cons p rest ih =>
    intro acc b
    by_cases hp : p.1 = ptrRecordKey
    · simp only [List.foldl_cons, if_pos hp, ih, List.map_cons, hp,
        List.any_cons, List.append_assoc, List.singleton_append]
      simp [hp]
    · have hp' : (p.1 == ptrRecordKey) = false := by simpa using hp
      simp only [List.foldl_cons, if_neg hp, ih, List.map_cons,
        List.any_cons, List.append_assoc, List.singleton_append]
      simp [hp, hp']

lemma markPtr_eq (ps : List (String × String)) :
    markPtr ps
      = if ps.any (fun p => p.1 == ptrRecordKey)
        then ps.map (fun p => if p.1 = ptrRecordKey then (p.1, "true") else p)
        else ps.map (fun p => if p.1 = ptrRecordKey then (p.1, "true") else p)
          ++ [(ptrRecordKey, "true")] := by
  unfold markPtr
  rw [markPtr_foldl]
  rw [Bool.false_or]
  simp

lemma markPtr_map_id (ps : List (String × String))
    (h : ps.any (fun p => p.1 == ptrRecordKey) = false) :
    ps.map (fun p => if p.1 = ptrRecordKey then (p.1, "true") else p) = ps := by
  have hall := List.any_eq_false.mp h
  calc ps.map (fun p => if p.1 = ptrRecordKey then (p.1, "true") else p)
      = ps.map id := by
        refine List.map_congr_left ?_
        intro p hp
        have : ¬ (p.1 == ptrRecordKey) = true := hall p hp
        have hne : p.1 ≠ ptrRecordKey := by simpa using this
        simp [hne]
    _ = ps := List.map_id ps

lemma markPtr_mem_true (ps : List (String × String)) :
    (ptrRecordKey, "true") ∈ markPtr ps := by
  rw [markPtr_eq]
  by_cases h : ps.any (fun p => p.1 == ptrRecordKey) = true
  · rw [if_pos h]
    rcases List.any_eq_true.mp h with ⟨p, hp, hkey⟩
    have hk : p.1 = ptrRecordKey := by simpa using hkey
    refine List.mem_map.mpr ⟨p, hp, ?_⟩
    simp [hk]
  · rw [if_neg h]
    exact List.mem_append_right _ (List.mem_singleton.mpr rfl)

lemma markPtr_any_true (ps : List (String × String)) :
    (markPtr ps).any (fun p => p.1 == ptrRecordKey) = true := by
  rcases List.append_of_mem (markPtr_mem_true ps) with ⟨l₁, l₂, hsplit⟩
  rw [hsplit]
  simp

lemma markPtr_map_fixed (ps : List (String × String)) :
    (markPtr ps).map (fun p => if p.1 = ptrRecordKey then (p.1, "true") else p)
      = markPtr ps := by
  rw [markPtr_eq]
  by_cases h : ps.any (fun p => p.1 == ptrRecordKey) = true
  · rw [if_pos h, List.map_map]
    refine List.map_congr_left ?_
    intro p _
    by_cases hp : p.1 = ptrRecordKey
    · simp [hp]
    · simp [hp]
  · have hf : ps.any (fun p => p.1 == ptrRecordKey) = false := by
      simp only [Bool.not_eq_true] at h
      exact h
    rw [if_neg h, List.map_append, markPtr_map_id ps hf, markPtr_map_id ps hf]
    simp [ptrRecordKey]

lemma markPtr_idem (ps : List (String × String)) :
    markPtr (markPtr ps) = markPtr ps := by
  rw [markPtr_eq (markPtr ps), if_pos (markPtr_any_true ps), markPtr_map_fixed]

lemma countP_congr_local {α : Type} (l : List α) (p q : α → Bool)
    (h : ∀ a ∈ l, p a = q a) : l.countP p = l.countP q := by
  induction l with
  | nil => rfl
  | cons x rest ih =>
    rw [List.countP_cons, List.countP_cons, h x (List.mem_cons_self _ _),
      ih (fun a ha => h a (List.mem_cons_of_mem _ ha))]

lemma markPtr_count (ps : List (String × String)) :
    ((markPtr ps).filter (fun p => p.1 == ptrRecordKey)).length
      = if (ps.filter (fun p => p.1 == ptrRecordKey)).length = 0 then 1
        else (ps.filter (fun p => p.1 == ptrRecordKey)).length := by
  have hmaplen : ∀ (l : List (String × String)),
      ((l.map (fun p => if p.1 = ptrRecordKey then (p.1, "true") else p)).filter
        (fun p => p.1 == ptrRecordKey)).length
      = (l.filter (fun p => p.1 == ptrRecordKey)).length := by
    intro l
    rw [← List.countP_eq_length_filter, ← List.countP_eq_length_filter,
      List.countP_map]
    refine countP_congr_local l _ _ ?_
    intro p _
    by_cases hk : p.1 = ptrRecordKey
    · simp [hk, Function.comp]
    · simp [hk, Function.comp]
  rw [markPtr_eq]
  by_cases h : ps.any (fun p => p.1 == ptrRecordKey) = true
  · rw [if_pos h, hmaplen]
    rcases List.any_eq_true.mp h with ⟨p, hp, hpred⟩
    have hmem : p ∈ ps.filter (fun p => p.1 == ptrRecordKey) :=
      List.mem_filter.mpr ⟨hp, hpred⟩
    have hne : (ps.filter (fun p => p.1 == ptrRecordKey)).length ≠ 0 := by
      intro h0
      rw [List.length_eq_zero] at h0
      rw [h0] at hmem
      cases hmem
    rw [if_neg hne]
  · have hf : ps.any (fun p => p.1 == ptrRecordKey) = false := by
      simp only [Bool.not_eq_true] at h
      exact h
    have hallf := List.any_eq_false.mp hf
    have hempty : ps.filter (fun p => p.1 == ptrRecordKey) = [] :=
      List.filter_eq_nil_iff.mpr hallf
    rw [if_neg h, markPtr_map_id ps hf, List.filter_append, hempty]
    simp [ptrRecordKey]

lemma markPtr_value_true (ps : List (String × String)) (p : String × String)
    (hp : p ∈ markPtr ps) (hk : p.1 = ptrRecordKey) : p.2 = "true" := by
  rw [markPtr_eq] at hp
  by_cases h : ps.any (fun q => q.1 == ptrRecordKey) = true
  · rw [if_pos h] at hp
    rcases List.mem_map.mp hp with ⟨q, _, heq⟩
    by_cases hqk : q.1 = ptrRecordKey
    · rw [← heq]
      simp [hqk]
    · rw [← heq] at hk
      simp [hqk] at hk
  · have hf : ps.any (fun q => q.1 == ptrRecordKey) = false := by
      simp only [Bool.not_eq_true] at h
      exact h
    rw [if_neg h, markPtr_map_id ps hf] at hp
    rcases List.mem_append.mp hp with hmem | hmem
    · have := List.any_eq_false.mp hf p hmem
      simp [hk] at this
    · rw [List.mem_singleton.mp hmem]

/-- Claim C7: the PTR marker is monotone and idempotent within a pass.
Every marking (on read in `Records`, on adjust in `AdjustEndpoints`) leaves
a marker pair with value `"true"` present; a marker already present is
overwritten with `"true"` rather than appended (the number of marker pairs
never grows past one when starting from at most one, and every marker pair
carries `"true"`); marking twice equals marking once; and a `"true"` marker
already on an endpoint survives both per-endpoint marking operations. -/
theorem ptr_marker_monotone_idempotent :
    (∀ ps, (ptrRecordKey, "true") ∈ markPtr ps)
    ∧ (∀ ps, markPtr (markPtr ps) = markPtr ps)
    ∧ (∀ ps, ((markPtr ps).filter (fun p => p.1 == ptrRecordKey)).length
        = if (ps.filter (fun p => p.1 == ptrRecordKey)).length = 0 then 1
          else (ps.filter (fun p => p.1 == ptrRecordKey)).length)
    ∧ (∀ ps p, p ∈ markPtr ps → p.1 = ptrRecordKey → p.2 = "true")
    ∧ (∀ ptrNames e, (ptrRecordKey, "true") ∈ e.providerSpecific →
        (ptrRecordKey, "true") ∈ (markEndpointOnRead ptrNames e).providerSpecific)
    ∧ (∀ e, (ptrRecordKey, "true") ∈ e.providerSpecific →
        (ptrRecordKey, "true") ∈ (adjustEndpointStep e).providerSpecific)
    ∧ (∀ e, adjustEndpointStep (adjustEndpointStep e) = adjustEndpointStep e) := by
  refine ⟨markPtr_mem_true, markPtr_idem, markPtr_count, markPtr_value_true,
    ?_, ?_, ?_⟩
  · intro ptrNames e hmem
    unfold markEndpointOnRead
    by_cases hc : e.recordType = "A" ∧ e.dnsName ∈ ptrNames
    · rw [if_pos hc]
      exact markPtr_mem_true e.providerSpecific
    · rw [if_neg hc]
      exact hmem
  · intro e hmem
    unfold adjustEndpointStep
    by_cases hc : e.recordType = "A"
    · rw [if_pos hc]
      exact markPtr_mem_true e.providerSpecific
    · rw [if_neg hc]
      exact hmem
  · intro e
    unfold adjustEndpointStep
    by_cases hc : e.recordType = "A"
    · rw [if_pos hc]
      have hty : ({ e with providerSpecific := markPtr e.providerSpecific }
          : Endpoint).recordType = "A" := hc
      rw [if_pos hty]
      dsimp only
      rw [markPtr_idem]
    · rw [if_neg hc, if_neg hc]

/-- Witness for C7: marking a concrete already-marked A endpoint keeps the
marker, and marking is idempotent there. -/
theorem ptr_marker_monotone_idempotent_w :
    (ptrRecordKey, "true")
      ∈ (adjustEndpointStep
          ⟨"host.example.com", "A", ["1.1.1.1"], 0,
            [(ptrRecordKey, "true")]⟩).providerSpecific
    ∧ markPtr (markPtr [("x", "y")]) = markPtr [("x", "y")] := by
  refine ⟨?_, ptr_marker_monotone_idempotent.2.1 [("x", "y")]⟩
  exact ptr_marker_monotone_idempotent.2.2.2.2.2.1
    ⟨"host.example.com", "A", ["1.1.1.1"], 0, [(ptrRecordKey, "true")]⟩
    (by decide)

/-- Claim C8: at every backend call site a "not found" failure reads as an
empty result and produces no error, while any other backend failure is
propagated and aborts the operation: this holds for the shared call-site
pattern `fetchOrEmpty`, for zone listing (`zonesOp`), for the per-zone
record fetches of `Records` (`fetchZoneRecords`) and for the whole
`Records` operation. -/
theorem notfound_empty_other_aborts :
    (fetchOrEmpty (α := Endpoint) (.error .notFound) = .ok []
      ∧ ∀ m, fetchOrEmpty (α := Endpoint) (.error (.other m)) = .error (.other m))
    ∧ (∀ df, zonesOp df (.error .notFound) = .ok []
      ∧ ∀ m, zonesOp df (.error (.other m)) = .error (.other m))
    ∧ (∀ (cfg : Config) (fetch : String → RecKind → Except IBErr (List Endpoint))
        (z : ZoneAuth),
        (∀ k, fetch z.fqdn k = .error .notFound) →
        fetchZoneRecords cfg fetch z = .ok [])
    ∧ (∀ (cfg : Config) (fetch : String → RecKind → Except IBErr (List Endpoint))
        (z : ZoneAuth) (m : String),
        fetch z.fqdn .A = .error (.other m) →
        fetchZoneRecords cfg fetch z = .error (.other m))
    ∧ (∀ (cfg : Config) (df : String → Bool)
        (fetch : String → RecKind → Except IBErr (List Endpoint)),
        recordsOp cfg df (.error .notFound) fetch = .ok []
        ∧ ∀ m, recordsOp cfg df (.error (.other m)) fetch
            = .error (.other m)) := by
  refine ⟨⟨rfl, fun m => rfl⟩, fun df => ⟨rfl, fun m => rfl⟩, ?_, ?_, ?_⟩
  · intro cfg fetch z h
    unfold fetchZoneRecords
    rw [h .A, h .Host, h .CNAME, h .TXT]
    cases hpc : parseCIDR z.fqdn with
    | none => rfl
    | some v =>
      cases hcp : cfg.createPTR with
      | false => rfl
      | true =>
        rw [h .PTR]
        rfl
  · intro cfg fetch z m h
    unfold fetchZoneRecords
    rw [h]
    rfl
  · intro cfg df fetch
    constructor
    · obtain ⟨cp, dt⟩ := cfg
      cases cp <;> rfl
    · intro m
      rfl

/-- Witness for C8: with a backend answering "not found" everywhere, the
per-zone fetch of `Records` returns an empty result and no error; with one
site failing otherwise, the failure propagates. -/
theorem notfound_empty_other_aborts_w :
    fetchZoneRecords ⟨true, 300⟩ (fun _ _ => .error .notFound) ⟨"example.com"⟩
      = .ok []
    ∧ fetchZoneRecords ⟨true, 300⟩ (fun _ _ => .error (.other "boom"))
        ⟨"example.com"⟩
      = .error (.other "boom") := by
  refine ⟨?_, ?_⟩
  · exact notfound_empty_other_aborts.2.2.1 ⟨true, 300⟩
      (fun _ _ => .error .notFound) ⟨"example.com"⟩ (fun k => rfl)
  · exact notfound_empty_other_aborts.2.2.2.1 ⟨true, 300⟩
      (fun _ _ => .error (.other "boom")) ⟨"example.com"⟩ "boom" rfl
